import Mathlib

/-!
Verification development for the AegisSLO evaluation core.

The Go source is shallowly embedded: float64 quantities (SLI values, error
rates, burn rates, thresholds, objectives) are modelled as exact rationals
(`ℚ`); `time.Time` / `time.Duration` values are modelled as `ℤ` nanoseconds
with explicit 64-bit wrap-around where Go's int64 arithmetic can overflow;
Go maps keyed by window label are modelled as association lists with
`List.lookup`; fallible Go functions returning `(T, error)` are modelled as
`Except String T`.
-/

namespace Aegis

/-! ## Evaluation math (internal/eval, ComputeSLI / ComputeBurnRate /
ComputeBudgetRemaining) -/

/-- Embeds `eval.SLIResult`. -/
structure SLIResult where
  value : ℚ
  errorRate : ℚ
  insufficientData : Bool
  reason : String
deriving DecidableEq

/-- Embeds `eval.ComputeSLI`: zero traffic short-circuits; otherwise good is
clamped to total, `value = good/total`, `errorRate = max 0 (1 - value)`. -/
def ComputeSLI (good total : ℚ) : SLIResult :=
  if total = 0 then
    { value := 0, errorRate := 0, insufficientData := true
      reason := "no traffic (total=0)" }
  else
    let good := if total < good then total else good
    let sli := good / total
    let errorRate := max 0 (1 - sli)
    { value := sli, errorRate := errorRate, insufficientData := false, reason := "" }

/-- Embeds `eval.ComputeBurnRate`. -/
def ComputeBurnRate (errorRate objective : ℚ) : ℚ :=
  let errorBudget := 1 - objective
  if errorBudget ≤ 0 then 0 else errorRate / errorBudget

/-- Embeds `eval.ComputeBudgetRemaining`: clamps a negative error rate to 0,
then clamps `1 - errorRate/errorBudget` into [0, 1]. -/
def ComputeBudgetRemaining (errorRate objective : ℚ) : ℚ :=
  let errorBudget := 1 - objective
  if errorBudget ≤ 0 then 0
  else
    let errorRate := if errorRate < 0 then 0 else errorRate
    let consumed := errorRate / errorBudget
    let remaining := 1 - consumed
    if remaining < 0 then 0
    else if 1 < remaining then 1
    else remaining

lemma clamp_min_eq (good total : ℚ) :
    (if total < good then total else good) = min good total := by
  split
  · exact (min_eq_right (le_of_lt (by assumption))).symm
  · exact (min_eq_left (le_of_not_lt (by assumption))).symm

/-- C3: with `total = 0` the SLI result is `{0, 0, insufficientData}`
regardless of `good`; with `total > 0` it is `min(good,total)/total`, lies in
[0, 1], and the error rate is `max 0 (1 - value)`. -/
theorem ComputeSLI_correct (good total : ℚ) (hg : 0 ≤ good) (ht : 0 ≤ total) :
    (total = 0 →
      (ComputeSLI good total).value = 0 ∧
      (ComputeSLI good total).errorRate = 0 ∧
      (ComputeSLI good total).insufficientData = true) ∧
    (0 < total →
      (ComputeSLI good total).insufficientData = false ∧
      (ComputeSLI good total).value = min good total / total ∧
      0 ≤ (ComputeSLI good total).value ∧
      (ComputeSLI good total).value ≤ 1 ∧
      (ComputeSLI good total).errorRate
        = max 0 (1 - (ComputeSLI good total).value)) := by
  constructor
  · intro h0
    simp [ComputeSLI, h0]
  · intro hpos
    have hne : total ≠ 0 := ne_of_gt hpos
    have hval : (ComputeSLI good total).value = min good total / total := by
      simp only [ComputeSLI, if_neg hne, clamp_min_eq]
    refine ⟨by simp [ComputeSLI, hne], hval, ?_, ?_, ?_⟩
    · rw [hval]
      exact div_nonneg (le_min hg ht) ht
    · rw [hval]
      exact (div_le_one hpos).mpr (min_le_right good total)
    · simp only [ComputeSLI, if_neg hne, clamp_min_eq]

/-- Witness for C3 at `good = 3`, `total = 4`. -/
theorem ComputeSLI_correct_witness :
    (0 < (4 : ℚ)) ∧
    ((ComputeSLI 3 4).insufficientData = false ∧
      (ComputeSLI 3 4).value = min 3 4 / 4 ∧
      0 ≤ (ComputeSLI 3 4).value ∧
      (ComputeSLI 3 4).value ≤ 1 ∧
      (ComputeSLI 3 4).errorRate = max 0 (1 - (ComputeSLI 3 4).value)) :=
  ⟨by norm_num,
    (ComputeSLI_correct 3 4 (by norm_num) (by norm_num)).2 (by norm_num)⟩

/-- C4: with a non-positive error budget both functions return 0; otherwise
the burn rate is `errorRate / (1 - objective)` and the remaining budget is
`1 - errorRate/(1 - objective)` clamped into [0, 1]. -/
theorem ComputeBurnRate_BudgetRemaining_correct (errorRate objective : ℚ)
    (h : 0 ≤ errorRate) :
    (1 - objective ≤ 0 →
      ComputeBurnRate errorRate objective = 0 ∧
      ComputeBudgetRemaining errorRate objective = 0) ∧
    (0 < 1 - objective →
      ComputeBurnRate errorRate objective = errorRate / (1 - objective) ∧
      ComputeBudgetRemaining errorRate objective
        = min 1 (max 0 (1 - errorRate / (1 - objective))) ∧
      0 ≤ ComputeBudgetRemaining errorRate objective ∧
      ComputeBudgetRemaining errorRate objective ≤ 1) := by
  constructor
  · intro hle
    simp [ComputeBurnRate, ComputeBudgetRemaining, hle]
  · intro hpos
    have hne : ¬(1 - objective ≤ 0) := not_le.mpr hpos
    have hnneg : ¬(errorRate < 0) := not_lt.mpr h
    have hbr : ComputeBurnRate errorRate objective = errorRate / (1 - objective) := by
      simp [ComputeBurnRate, hne]
    have hclamp : ComputeBudgetRemaining errorRate objective
        = min 1 (max 0 (1 - errorRate / (1 - objective))) := by
      simp only [ComputeBudgetRemaining, if_neg hne, if_neg hnneg]
      rcases lt_trichotomy (1 - errorRate / (1 - objective)) 0 with hlt | heq | hgt
      · rw [if_pos hlt, max_eq_left (le_of_lt hlt), min_eq_right (by norm_num)]
      · rw [if_neg (by rw [heq]; exact lt_irrefl 0), heq]
        norm_num
      · rw [if_neg (not_lt.mpr (le_of_lt hgt)), max_eq_right (le_of_lt hgt)]
        split
        · exact (min_eq_left (le_of_lt (by assumption))).symm
        · exact (min_eq_right (le_of_not_lt (by assumption))).symm
    refine ⟨hbr, hclamp, ?_, ?_⟩
    · rw [hclamp]
      exact le_min (by norm_num) (le_max_left 0 _)
    · rw [hclamp]
      exact min_le_left 1 _

/-- Witness for C4 at `errorRate = 1/50`, `objective = 999/1000`. -/
theorem ComputeBurnRate_BudgetRemaining_correct_witness :
    (0 < 1 - (999 / 1000 : ℚ)) ∧
    (ComputeBurnRate (1 / 50) (999 / 1000) = (1 / 50) / (1 - 999 / 1000) ∧
      ComputeBudgetRemaining (1 / 50) (999 / 1000)
        = min 1 (max 0 (1 - (1 / 50) / (1 - 999 / 1000))) ∧
      0 ≤ ComputeBudgetRemaining (1 / 50) (999 / 1000) ∧
      ComputeBudgetRemaining (1 / 50) (999 / 1000) ≤ 1) :=
  ⟨by norm_num,
    (ComputeBurnRate_BudgetRemaining_correct (1 / 50) (999 / 1000)
      (by norm_num)).2 (by norm_num)⟩

/-! ## Duration parsing (internal/slo/duration.go) and formatting
(validator.go formatDuration).

Durations are int64 nanosecond counts in Go; we model them as `ℤ` and make
the 64-bit wrap-around of Go's multiplications explicit with `wrap64`. -/

/-- Reduction of an integer into signed 64-bit range, as Go's int64
arithmetic produces on overflow. -/
def wrap64 (x : ℤ) : ℤ :=
  (x + 9223372036854775808) % 18446744073709551616 - 9223372036854775808

/-- The units accepted by the duration regexp `^(\d+)(s|m|h|d)$`. -/
def durationUnits : List Char := ['s', 'm', 'h', 'd']

/-- Nanoseconds per duration unit. -/
def unitNanos (u : Char) : ℤ :=
  if u = 's' then 1000000000
  else if u = 'm' then 60000000000
  else if u = 'h' then 3600000000000
  else if u = 'd' then 86400000000000
  else 0

/-- Numeric value of a decimal digit string, as `strconv.ParseInt` computes
it for the regexp's first capture group. -/
def digitsVal (l : List Char) : ℕ :=
  l.foldl (fun a c => 10 * a + (c.toNat - 48)) 0

/-- The match of `^(\d+)(s|m|h|d)$` against `s`: the digit-group value and
the unit character, or `none` when the string does not match. -/
def durationParts (s : String) : Option (ℕ × Char) :=
  match s.data.getLast? with
  | none => none
  | some u =>
    if u ∈ durationUnits then
      let ds := s.data.dropLast
      if ds ≠ [] ∧ ds.all Char.isDigit = true then some (digitsVal ds, u)
      else none
    else none

/-- Embeds `slo.ParseDuration`: regexp match, `strconv.ParseInt` (which
fails above int64 max), then multiplication by the unit in Go int64
arithmetic (wrapping).  The `d` case mirrors Go's
`time.Duration(value) * 24 * time.Hour`, two wrapping multiplications. -/
def ParseDuration (s : String) : Except String ℤ :=
  match durationParts s with
  | none => .error ("invalid duration format: " ++ s)
  | some (n, u) =>
    if 9223372036854775807 < n then .error ("invalid duration value: " ++ s)
    else
      if u = 's' then .ok (wrap64 ((n : ℤ) * 1000000000))
      else if u = 'm' then .ok (wrap64 ((n : ℤ) * 60000000000))
      else if u = 'h' then .ok (wrap64 ((n : ℤ) * 3600000000000))
      else .ok (wrap64 (wrap64 ((n : ℤ) * 24) * 3600000000000))

/-- The character for decimal digit `n`. -/
def digitChar (n : ℕ) : Char := Char.ofNat (48 + n)

/-- Decimal rendering of a natural number, accumulator style; embeds the
digit emission of `fmt.Sprintf` with verb `%d`. -/
def natReprAux (n : ℕ) (acc : List Char) : List Char :=
  if n < 10 then digitChar n :: acc
  else natReprAux (n / 10) (digitChar (n % 10) :: acc)
termination_by n
decreasing_by exact Nat.div_lt_self (by omega) (by omega)

def natRepr (n : ℕ) : String := String.mk (natReprAux n [])

def intRepr (x : ℤ) : String :=
  if x < 0 then "-" ++ natRepr (-x).toNat else natRepr x.toNat

/-- Embeds `formatDuration` (validator.go): largest unit dividing exactly,
falling through `d`, `h`, `m` to `s`.  Go's truncating `%` and `/` agree
with `ℤ`'s Euclidean operators on the nonnegative durations at issue. -/
def formatDuration (d : ℤ) : String :=
  if d % 86400000000000 = 0 then intRepr (d / 86400000000000) ++ "d"
  else if d % 3600000000000 = 0 then intRepr (d / 3600000000000) ++ "h"
  else if d % 60000000000 = 0 then intRepr (d / 60000000000) ++ "m"
  else intRepr (d / 1000000000) ++ "s"

lemma wrap64_eq_self (x : ℤ) (h1 : -9223372036854775808 ≤ x)
    (h2 : x ≤ 9223372036854775807) : wrap64 x = x := by
  unfold wrap64; omega

lemma wrap64_add_multiple (x k : ℤ) :
    wrap64 (x + 18446744073709551616 * k) = wrap64 x := by
  unfold wrap64
  rw [show x + 18446744073709551616 * k + 9223372036854775808
      = x + 9223372036854775808 + 18446744073709551616 * k by ring,
    Int.add_mul_emod_self_left]

lemma wrap64_decomp (a : ℤ) :
    ∃ k, wrap64 a = a + 18446744073709551616 * k := by
  refine ⟨-((a + 9223372036854775808) / 18446744073709551616), ?_⟩
  unfold wrap64; omega

lemma wrap64_mul_wrap (a b : ℤ) : wrap64 (wrap64 a * b) = wrap64 (a * b) := by
  obtain ⟨k, hk⟩ := wrap64_decomp a
  rw [hk, show (a + 18446744073709551616 * k) * b
      = a * b + 18446744073709551616 * (k * b) by ring, wrap64_add_multiple]

lemma digitsVal_concat (xs : List Char) (c : Char) :
    digitsVal (xs ++ [c]) = 10 * digitsVal xs + (c.toNat - 48) := by
  simp [digitsVal, List.foldl_append]

lemma digitChar_toNat (n : ℕ) (h : n < 10) : (digitChar n).toNat = 48 + n := by
  interval_cases n <;> rfl

lemma digitChar_isDigit (n : ℕ) (h : n < 10) : (digitChar n).isDigit = true := by
  interval_cases n <;> rfl

lemma natReprAux_append (n : ℕ) :
    ∀ acc : List Char, natReprAux n acc = natReprAux n [] ++ acc := by
  induction n using Nat.strong_induction_on with
  | _ n ih =>
    intro acc
    by_cases h : n < 10
    · unfold natReprAux
      rw [if_pos h, if_pos h]
      simp
    · have hlt : n / 10 < n := Nat.div_lt_self (by omega) (by omega)
      unfold natReprAux
      rw [if_neg h, if_neg h, ih (n / 10) hlt (digitChar (n % 10) :: acc),
        ih (n / 10) hlt (digitChar (n % 10) :: [])]
      simp

lemma digitsVal_natReprAux (n : ℕ) : digitsVal (natReprAux n []) = n := by
  induction n using Nat.strong_induction_on with
  | _ n ih =>
    by_cases h : n < 10
    · unfold natReprAux
      rw [if_pos h]
      simp [digitsVal, digitChar_toNat n h]
    · have hlt : n / 10 < n := Nat.div_lt_self (by omega) (by omega)
      unfold natReprAux
      rw [if_neg h, natReprAux_append, digitsVal_concat, ih (n / 10) hlt,
        digitChar_toNat (n % 10) (Nat.mod_lt n (by omega))]
      omega

lemma natReprAux_all_digits (n : ℕ) :
    ∀ c ∈ natReprAux n [], c.isDigit = true := by
  induction n using Nat.strong_induction_on with
  | _ n ih =>
    by_cases h : n < 10
    · unfold natReprAux
      rw [if_pos h]
      intro c hc
      rw [List.mem_singleton] at hc
      rw [hc]
      exact digitChar_isDigit n h
    · have hlt : n / 10 < n := Nat.div_lt_self (by omega) (by omega)
      unfold natReprAux
      rw [if_neg h, natReprAux_append]
      intro c hc
      rcases List.mem_append.mp hc with hc | hc
      · exact ih (n / 10) hlt c hc
      · rw [List.mem_singleton] at hc
        rw [hc]
        exact digitChar_isDigit (n % 10) (Nat.mod_lt n (by omega))

lemma natReprAux_ne_nil (n : ℕ) : natReprAux n [] ≠ [] := by
  by_cases h : n < 10
  · unfold natReprAux
    rw [if_pos h]
    simp
  · unfold natReprAux
    rw [if_neg h, natReprAux_append]
    simp

lemma durationParts_concat (ds : List Char) (u : Char) (s : String)
    (hs : s.data = ds ++ [u]) (hne : ds ≠ []) (hdig : ds.all Char.isDigit = true)
    (hu : u ∈ durationUnits) : durationParts s = some (digitsVal ds, u) := by
  unfold durationParts
  rw [hs, List.getLast?_concat, List.dropLast_concat]
  simp only [if_pos hu, if_pos (And.intro hne hdig)]

lemma durationParts_some (s : String) (n : ℕ) (u : Char)
    (h : durationParts s = some (n, u)) :
    ∃ ds, s.data = ds ++ [u] ∧ ds ≠ [] ∧ ds.all Char.isDigit = true ∧
      u ∈ durationUnits ∧ digitsVal ds = n := by
  unfold durationParts at h
  rcases hlast : s.data.getLast? with _ | u'
  · rw [hlast] at h
    exact absurd h (by simp)
  · rw [hlast] at h
    dsimp only at h
    have hnil : s.data ≠ [] := by
      intro hd
      rw [hd] at hlast
      exact absurd hlast (by simp)
    split_ifs at h with hmem hds
    · have hu' : u' = u ∧ digitsVal s.data.dropLast = n := by
        have := Option.some.inj h
        exact ⟨(Prod.mk.injEq _ _ _ _ ▸ this).2, (Prod.mk.injEq _ _ _ _ ▸ this).1⟩
      refine ⟨s.data.dropLast, ?_, hds.1, hds.2, hu'.1 ▸ hmem, hu'.2⟩
      rw [← hu'.1]
      have hg : s.data.getLast hnil = u' := by
        rw [List.getLast?_eq_getLast s.data hnil] at hlast
        exact Option.some.inj hlast
      rw [← hg, List.dropLast_append_getLast hnil]

lemma ParseDuration_ok_of_decomp (ds : List Char) (u : Char) (s : String)
    (hs : s.data = ds ++ [u]) (hne : ds ≠ []) (hdig : ds.all Char.isDigit = true)
    (hu : u ∈ durationUnits) (hn : digitsVal ds ≤ 9223372036854775807) :
    ParseDuration s = .ok (wrap64 ((digitsVal ds : ℤ) * unitNanos u)) := by
  unfold ParseDuration
  rw [durationParts_concat ds u s hs hne hdig hu]
  simp only [if_neg (not_lt.mpr hn)]
  have hu' : u = 's' ∨ u = 'm' ∨ u = 'h' ∨ u = 'd' := by
    simpa [durationUnits] using hu
  rcases hu' with h | h | h | h <;> subst h
  · rfl
  · rfl
  · rfl
  · rw [if_neg (by decide : ¬('d' : Char) = 's'),
      if_neg (by decide : ¬('d' : Char) = 'm'),
      if_neg (by decide : ¬('d' : Char) = 'h'), wrap64_mul_wrap,
      show (digitsVal ds : ℤ) * 24 * 3600000000000
        = (digitsVal ds : ℤ) * 86400000000000 by ring,
      show unitNanos 'd' = 86400000000000 from rfl]

lemma ParseDuration_decomp_of_ok (s : String) (d : ℤ)
    (h : ParseDuration s = .ok d) :
    ∃ ds u, s.data = ds ++ [u] ∧ ds ≠ [] ∧ ds.all Char.isDigit = true ∧
      u ∈ durationUnits ∧ digitsVal ds ≤ 9223372036854775807 := by
  unfold ParseDuration at h
  rcases hp : durationParts s with _ | ⟨n, u⟩
  · rw [hp] at h
    exact absurd h (by simp)
  · rw [hp] at h
    dsimp only at h
    obtain ⟨ds, h1, h2, h3, h4, h5⟩ := durationParts_some s n u hp
    by_cases hover : 9223372036854775807 < n
    · rw [if_pos hover] at h
      exact absurd h (by simp)
    · exact ⟨ds, u, h1, h2, h3, h4, h5 ▸ not_lt.mp hover⟩

lemma intRepr_nonneg (x : ℤ) (h : 0 ≤ x) : intRepr x = natRepr x.toNat := by
  rw [intRepr, if_neg (not_lt.mpr h)]

lemma roundtrip_core (d K : ℤ) (u : Char) (t : String) (ht : t.data = [u])
    (hu : u ∈ durationUnits) (hKu : unitNanos u = K) (hKpos : 0 < K)
    (h0 : 0 ≤ d) (h1 : d ≤ 9223372036854775807) (hdvd : d % K = 0) :
    ParseDuration (intRepr (d / K) ++ t) = .ok d := by
  have hqnn : 0 ≤ d / K := Int.ediv_nonneg h0 (le_of_lt hKpos)
  have hqle : d / K ≤ d := Int.ediv_le_self K h0
  set n : ℕ := (d / K).toNat with hn
  have hcast : (n : ℤ) = d / K := Int.toNat_of_nonneg hqnn
  have hdata : (intRepr (d / K) ++ t).data = natReprAux n [] ++ [u] := by
    rw [intRepr_nonneg (d / K) hqnn, hn]
    show (natRepr (d / K).toNat).data ++ t.data = _
    rw [ht]
    rfl
  have hval : digitsVal (natReprAux n []) = n := digitsVal_natReprAux n
  have hbound : digitsVal (natReprAux n []) ≤ 9223372036854775807 := by
    rw [hval]
    omega
  rw [ParseDuration_ok_of_decomp (natReprAux n []) u _ hdata
    (natReprAux_ne_nil n)
    (List.all_eq_true.mpr (natReprAux_all_digits n)) hu hbound]
  rw [hval, hcast, hKu, Int.ediv_mul_cancel (Int.dvd_of_emod_eq_zero hdvd),
    wrap64_eq_self d (by omega) h1]

/-- C8 (amended): `ParseDuration s` succeeds iff `s` matches
`^[0-9]+(s|m|h|d)$` **and** the digit count fits in int64; on success it
returns count times unit in wrapping int64 arithmetic (hence exactly
count × unit whenever that product fits in int64). -/
theorem ParseDuration_amended (s : String) :
    ((∃ d, ParseDuration s = .ok d) ↔
      ∃ ds u, s.data = ds ++ [u] ∧ ds ≠ [] ∧ ds.all Char.isDigit = true ∧
        u ∈ durationUnits ∧ digitsVal ds ≤ 9223372036854775807) ∧
    (∀ ds u, s.data = ds ++ [u] → ds ≠ [] → ds.all Char.isDigit = true →
      u ∈ durationUnits → digitsVal ds ≤ 9223372036854775807 →
      ParseDuration s = .ok (wrap64 ((digitsVal ds : ℤ) * unitNanos u))) := by
  constructor
  · constructor
    · rintro ⟨d, hd⟩
      exact ParseDuration_decomp_of_ok s d hd
    · rintro ⟨ds, u, h1, h2, h3, h4, h5⟩
      exact ⟨_, ParseDuration_ok_of_decomp ds u s h1 h2 h3 h4 h5⟩
  · intro ds u h1 h2 h3 h4 h5
    exact ParseDuration_ok_of_decomp ds u s h1 h2 h3 h4 h5

/-- Witness for C8 at the input "5m". -/
theorem ParseDuration_amended_witness :
    ParseDuration "5m" = .ok (wrap64 ((digitsVal ['5'] : ℤ) * unitNanos 'm')) :=
  (ParseDuration_amended "5m").2 ['5'] 'm' rfl (by decide) (by decide)
    (by decide) (by decide)

/-- Counterexample to C8 as stated: `"9223372036854775808s"` (count 2^63)
matches `^[0-9]+(s|m|h|d)$` but `ParseDuration` rejects it, because
`strconv.ParseInt` overflows int64. -/
theorem ParseDuration_overflow_counterexample :
    (∃ ds u, ("9223372036854775808s" : String).data = ds ++ [u] ∧ ds ≠ [] ∧
      ds.all Char.isDigit = true ∧ u ∈ durationUnits) ∧
    ParseDuration "9223372036854775808s"
      = .error "invalid duration value: 9223372036854775808s" := by
  constructor
  · exact ⟨("9223372036854775808" : String).data, 's', by decide, by decide,
      by decide, by decide⟩
  · rfl

/-- C9: for every nonnegative int64 duration expressible as a whole count of
one of the units, `ParseDuration (formatDuration d) = .ok d`. -/
theorem ParseDuration_formatDuration_roundtrip (d : ℤ) (h0 : 0 ≤ d)
    (h1 : d ≤ 9223372036854775807)
    (hu : ∃ u ∈ durationUnits, unitNanos u ∣ d) :
    ParseDuration (formatDuration d) = .ok d := by
  have hsec : d % 1000000000 = 0 := by
    obtain ⟨u, hmem, hdvd⟩ := hu
    have hu' : u = 's' ∨ u = 'm' ∨ u = 'h' ∨ u = 'd' := by
      simpa [durationUnits] using hmem
    have h19 : (1000000000 : ℤ) ∣ unitNanos u := by
      rcases hu' with h | h | h | h <;> subst h
      · exact ⟨1, by decide⟩
      · exact ⟨60, by decide⟩
      · exact ⟨3600, by decide⟩
      · exact ⟨86400, by decide⟩
    exact Int.emod_eq_zero_of_dvd (h19.trans hdvd)
  unfold formatDuration
  split_ifs with hd hh hm
  · exact roundtrip_core d 86400000000000 'd' "d" rfl (by decide) (by decide)
      (by norm_num) h0 h1 hd
  · exact roundtrip_core d 3600000000000 'h' "h" rfl (by decide) (by decide)
      (by norm_num) h0 h1 hh
  · exact roundtrip_core d 60000000000 'm' "m" rfl (by decide) (by decide)
      (by norm_num) h0 h1 hm
  · exact roundtrip_core d 1000000000 's' "s" rfl (by decide) (by decide)
      (by norm_num) h0 h1 hsec

/-- Witness for C9 at `d` = 90 minutes = 5400000000000 ns. -/
theorem ParseDuration_formatDuration_roundtrip_witness :
    ParseDuration (formatDuration 5400000000000) = .ok 5400000000000 :=
  ParseDuration_formatDuration_roundtrip 5400000000000 (by norm_num)
    (by norm_num) ⟨'m', by decide, ⟨90, by decide⟩⟩

/-! ## SLO data model (internal/slo/types.go) -/

/-- Embeds `slo.QueryRef`. -/
structure QueryRef where
  prometheusQuery : String
deriving DecidableEq

/-- Embeds `slo.SLI` (the query configuration, not a computed value). -/
structure SLIConfig where
  sliType : String
  good : QueryRef
  total : QueryRef
deriving DecidableEq

/-- Embeds `slo.BurnRule`.  `action` is a plain string in Go, converted to
the `policy.Decision` string type when the rule is evaluated. -/
structure BurnRule where
  name : String
  shortWindow : String
  longWindow : String
  threshold : ℚ
  action : String
deriving DecidableEq

/-- Embeds `slo.BurnPolicy`. -/
structure BurnPolicy where
  rules : List BurnRule
deriving DecidableEq

/-- Embeds `slo.Gating`. -/
structure Gating where
  minDataPoints : ℤ
  stalenessLimit : String
deriving DecidableEq

/-- Embeds `slo.Metadata`. -/
structure Metadata where
  id : String
  service : String
deriving DecidableEq

/-- Embeds `slo.Spec`. -/
structure Spec where
  objective : ℚ
  complianceWindow : String
  evaluationInterval : String
  sli : SLIConfig
  burnPolicy : BurnPolicy
  gating : Gating
deriving DecidableEq

/-- Embeds `slo.SLO`. -/
structure SLO where
  metadata : Metadata
  spec : Spec
deriving DecidableEq

/-! ## Evaluation result types (internal/eval/types.go) -/

/-- Embeds `eval.WindowMetrics`; the optional wall-clock timestamp is `ℤ`
nanoseconds. -/
structure WindowMetrics where
  window : String
  good : ℚ
  total : ℚ
  dataTimestamp : Option ℤ
deriving DecidableEq

/-- Embeds `eval.BurnRateResult`. -/
structure BurnRateResult where
  window : String
  burnRate : ℚ
  sli : ℚ
  errorRate : ℚ
deriving DecidableEq

/-- Embeds `eval.EvaluationResult`; the window-keyed Go map `BurnRates` is
an association list. -/
structure EvaluationResult where
  sloID : String
  sli : SLIResult
  burnRates : List (String × BurnRateResult)
  budgetRemaining : ℚ
  insufficientData : Bool
  isStale : Bool
  timestamp : ℤ
deriving DecidableEq

/-! ## Policy engine (internal/policy).  `policy.Decision` is a string type
with values "ALLOW", "WARN", "BLOCK". -/

/-- Embeds `policy.RuleResult`. -/
structure RuleResult where
  ruleName : String
  triggered : Bool
  action : String
  shortBurnRate : ℚ
  longBurnRate : ℚ
  threshold : ℚ
  reason : String
deriving DecidableEq

/-- Embeds `policy.GateResult`. -/
structure GateResult where
  decision : String
  ruleResults : List RuleResult
  reasons : List String
  isStale : Bool
  hasNoTraffic : Bool
deriving DecidableEq

/-- Embeds `Engine.evaluateRule`: missing window data yields an un-triggered
result; otherwise the rule triggers iff both burn rates reach the threshold.
The numeric rendering in the triggered reason abstracts Go's `%.2f`
formatting; no claim depends on those digits. -/
def evaluateRule (rule : BurnRule) (evalResult : EvaluationResult) : RuleResult :=
  match List.lookup rule.shortWindow evalResult.burnRates,
        List.lookup rule.longWindow evalResult.burnRates with
  | some shortBurn, some longBurn =>
    if rule.threshold ≤ shortBurn.burnRate ∧ rule.threshold ≤ longBurn.burnRate then
      { ruleName := rule.name, triggered := true, action := rule.action
        shortBurnRate := shortBurn.burnRate, longBurnRate := longBurn.burnRate
        threshold := rule.threshold
        reason := "rule " ++ rule.name ++ " triggered: short=" ++ toString shortBurn.burnRate
          ++ "x, long=" ++ toString longBurn.burnRate ++ "x (threshold="
          ++ toString rule.threshold ++ "x)" }
    else
      { ruleName := rule.name, triggered := false, action := rule.action
        shortBurnRate := shortBurn.burnRate, longBurnRate := longBurn.burnRate
        threshold := rule.threshold, reason := "" }
  | _, _ =>
    { ruleName := rule.name, triggered := false, action := rule.action
      shortBurnRate := 0, longBurnRate := 0, threshold := 0
      reason := "rule " ++ rule.name ++ ": missing window data" }

/-- One iteration of the burn-rule loop of `Engine.Evaluate`. -/
def ruleStep (evalResult : EvaluationResult) (acc : GateResult)
    (rule : BurnRule) : GateResult :=
  let rr := evaluateRule rule evalResult
  let acc1 := { acc with ruleResults := acc.ruleResults ++ [rr] }
  if rr.triggered then
    let d :=
      if rr.action = "BLOCK" then "BLOCK"
      else if rr.action = "WARN" ∧ acc1.decision ≠ "BLOCK" then "WARN"
      else acc1.decision
    { acc1 with decision := d, reasons := acc1.reasons ++ [rr.reason] }
  else acc1

/-- The gating-modifier steps of `Engine.Evaluate` (stale, then
insufficient data), applied to the fresh ALLOW result. -/
def applyModifiers (evalResult : EvaluationResult) : GateResult :=
  let r0 : GateResult :=
    { decision := "ALLOW", ruleResults := [], reasons := []
      isStale := evalResult.isStale, hasNoTraffic := evalResult.insufficientData }
  let r1 :=
    if evalResult.isStale then
      { r0 with decision := "WARN", reasons := r0.reasons ++ ["data is stale"] }
    else r0
  if evalResult.insufficientData then
    { r1 with
      decision := "WARN",
      reasons := r1.reasons ++ ["insufficient data (zero traffic)"] }
  else r1

/-- Embeds `Engine.Evaluate` (policy engine): gating modifiers, burn-rule
loop in declaration order, then the positive reason when nothing fired. -/
def Engine.Evaluate (sloSpec : SLO) (evalResult : EvaluationResult) : GateResult :=
  let base :=
    sloSpec.spec.burnPolicy.rules.foldl (ruleStep evalResult)
      (applyModifiers evalResult)
  if base.decision = "ALLOW" ∧ base.reasons = [] then
    { base with reasons := base.reasons ++ ["all burn rate checks passed"] }
  else base

/-! ## Severity order on decisions: BLOCK > WARN > ALLOW. -/

/-- Severity rank of a decision string (unknown strings rank 0, which is
how `Engine.Evaluate` treats them: they never change the decision). -/
def decisionSeverity (d : String) : ℕ :=
  if d = "BLOCK" then 2 else if d = "WARN" then 1 else 0

/-- The decision string of a severity rank. -/
def decisionOfSeverity (n : ℕ) : String :=
  if n = 0 then "ALLOW" else if n = 1 then "WARN" else "BLOCK"

/-- Severity contributed by one burn rule: its action's severity when it
triggers, 0 otherwise. -/
def triggeredSeverity (evalResult : EvaluationResult) (rule : BurnRule) : ℕ :=
  if (evaluateRule rule evalResult).triggered then
    decisionSeverity (evaluateRule rule evalResult).action
  else 0

/-- Maximum severity contributed by a rule list. -/
def rulesSeverity (evalResult : EvaluationResult) (rules : List BurnRule) : ℕ :=
  (rules.map (triggeredSeverity evalResult)).foldl max 0

lemma foldl_max_shift (l : List ℕ) : ∀ a : ℕ, l.foldl max a = max a (l.foldl max 0) := by
  induction l with
  | nil => intro a; simp
  | cons b t ih =>
    intro a
    rw [List.foldl_cons, List.foldl_cons, ih (max a b), ih (max 0 b)]
    omega

lemma le_foldl_max (l : List ℕ) (x : ℕ) (hx : x ∈ l) : x ≤ l.foldl max 0 := by
  induction l with
  | nil => cases hx
  | cons b t ih =>
    rw [List.foldl_cons, foldl_max_shift]
    rcases List.mem_cons.mp hx with h | h
    · omega
    · have := ih h
      omega

lemma decisionSeverity_le_two (d : String) : decisionSeverity d ≤ 2 := by
  unfold decisionSeverity
  split_ifs <;> omega

lemma triggeredSeverity_le_two (er : EvaluationResult) (rule : BurnRule) :
    triggeredSeverity er rule ≤ 2 := by
  unfold triggeredSeverity
  split
  · exact decisionSeverity_le_two _
  · omega

lemma decisionOfSeverity_ge_two (n : ℕ) (h : 2 ≤ n) :
    decisionOfSeverity n = "BLOCK" := by
  unfold decisionOfSeverity
  rw [if_neg (by omega), if_neg (by omega)]

lemma ruleStep_decision_eq (er : EvaluationResult) (acc : GateResult)
    (rule : BurnRule) :
    (ruleStep er acc rule).decision =
      if (evaluateRule rule er).triggered then
        if (evaluateRule rule er).action = "BLOCK" then "BLOCK"
        else if (evaluateRule rule er).action = "WARN" ∧ acc.decision ≠ "BLOCK" then "WARN"
        else acc.decision
      else acc.decision := by
  unfold ruleStep
  by_cases ht : (evaluateRule rule er).triggered = true
  · rw [if_pos ht, if_pos ht]
  · rw [if_neg ht, if_neg ht]

lemma ruleStep_reasons_eq (er : EvaluationResult) (acc : GateResult)
    (rule : BurnRule) :
    (ruleStep er acc rule).reasons =
      if (evaluateRule rule er).triggered then
        acc.reasons ++ [(evaluateRule rule er).reason]
      else acc.reasons := by
  unfold ruleStep
  by_cases ht : (evaluateRule rule er).triggered = true
  · rw [if_pos ht, if_pos ht]
  · rw [if_neg ht, if_neg ht]

lemma ruleStep_decision_severity (er : EvaluationResult) (rule : BurnRule)
    (acc : GateResult) (k : ℕ) (hk : k ≤ 2)
    (hacc : acc.decision = decisionOfSeverity k) :
    (ruleStep er acc rule).decision
      = decisionOfSeverity (max k (triggeredSeverity er rule)) := by
  rw [ruleStep_decision_eq]
  unfold triggeredSeverity
  by_cases ht : (evaluateRule rule er).triggered = true
  · rw [if_pos ht, if_pos ht]
    by_cases hb : (evaluateRule rule er).action = "BLOCK"
    · rw [if_pos hb, show decisionSeverity (evaluateRule rule er).action = 2 by
        rw [hb]; decide, show max k 2 = 2 by omega]
      decide
    · by_cases hw : (evaluateRule rule er).action = "WARN"
      · rw [if_neg hb, show decisionSeverity (evaluateRule rule er).action = 1 by
          rw [hw]; decide]
        by_cases hB : acc.decision = "BLOCK"
        · have hk2 : k = 2 := by
            rw [hacc] at hB
            interval_cases k
            · exact absurd hB (by decide)
            · exact absurd hB (by decide)
            · rfl
          rw [if_neg (fun hc => hc.2 hB), hacc, hk2]
          decide
        · rw [if_pos ⟨hw, hB⟩]
          interval_cases k
          · decide
          · decide
          · exact absurd (hacc.trans (by decide)) hB
      · rw [if_neg hb, if_neg (fun hc => hw hc.1), hacc,
          show decisionSeverity (evaluateRule rule er).action = 0 by
            unfold decisionSeverity; rw [if_neg hb, if_neg hw],
          Nat.max_zero]
  · rw [if_neg ht, if_neg ht, hacc, Nat.max_zero]

lemma foldl_ruleStep_decision (er : EvaluationResult) (rules : List BurnRule) :
    ∀ (acc : GateResult) (k : ℕ), k ≤ 2 → acc.decision = decisionOfSeverity k →
      (rules.foldl (ruleStep er) acc).decision
        = decisionOfSeverity (max k (rulesSeverity er rules)) := by
  induction rules with
  | nil =>
    intro acc k hk hacc
    simpa [rulesSeverity] using hacc
  | cons r rs ih =>
    intro acc k hk hacc
    have htle : triggeredSeverity er r ≤ 2 := triggeredSeverity_le_two er r
    rw [List.foldl_cons,
      ih (ruleStep er acc r) (max k (triggeredSeverity er r))
        (Nat.max_le.mpr ⟨hk, htle⟩) (ruleStep_decision_severity er r acc k hk hacc)]
    congr 1
    rw [rulesSeverity, rulesSeverity, List.map_cons, List.foldl_cons,
      foldl_max_shift (List.map (triggeredSeverity er) rs)
        (max 0 (triggeredSeverity er r))]
    omega

lemma foldl_ruleStep_reasons_extend (er : EvaluationResult)
    (rules : List BurnRule) :
    ∀ acc : GateResult, ∃ t, (rules.foldl (ruleStep er) acc).reasons
      = acc.reasons ++ t := by
  induction rules with
  | nil => exact fun acc => ⟨[], by simp⟩
  | cons r rs ih =>
    intro acc
    obtain ⟨t, htl⟩ := ih (ruleStep er acc r)
    rw [List.foldl_cons]
    rw [ruleStep_reasons_eq] at htl
    by_cases ht : (evaluateRule r er).triggered = true
    · rw [if_pos ht] at htl
      exact ⟨(evaluateRule r er).reason :: t, by rw [htl]; simp⟩
    · rw [if_neg ht] at htl
      exact ⟨t, htl⟩

lemma foldl_ruleStep_nonempty (er : EvaluationResult) (rules : List BurnRule) :
    ∀ acc : GateResult, (acc.decision ≠ "ALLOW" → acc.reasons ≠ []) →
      ((rules.foldl (ruleStep er) acc).decision ≠ "ALLOW" →
        (rules.foldl (ruleStep er) acc).reasons ≠ []) := by
  induction rules with
  | nil => exact fun acc h => h
  | cons r rs ih =>
    intro acc h
    rw [List.foldl_cons]
    apply ih
    intro hdec
    rw [ruleStep_reasons_eq]
    by_cases ht : (evaluateRule r er).triggered = true
    · rw [if_pos ht]
      simp
    · rw [if_neg ht]
      apply h
      rw [ruleStep_decision_eq, if_neg ht] at hdec
      exact hdec

lemma foldl_ruleStep_no_trigger (er : EvaluationResult) :
    ∀ (rules : List BurnRule),
      (∀ r ∈ rules, (evaluateRule r er).triggered = false) →
      ∀ acc : GateResult,
        (rules.foldl (ruleStep er) acc).decision = acc.decision ∧
        (rules.foldl (ruleStep er) acc).reasons = acc.reasons := by
  intro rules
  induction rules with
  | nil => exact fun _ acc => ⟨rfl, rfl⟩
  | cons r rs ih =>
    intro h acc
    have hr : (evaluateRule r er).triggered = false := h r (by simp)
    have hrf : ¬(evaluateRule r er).triggered = true := by
      rw [hr]; exact Bool.false_ne_true
    obtain ⟨h1, h2⟩ := ih (fun r' hr' => h r' (List.mem_cons_of_mem _ hr'))
      (ruleStep er acc r)
    rw [List.foldl_cons]
    refine ⟨?_, ?_⟩
    · rw [h1, ruleStep_decision_eq, if_neg hrf]
    · rw [h2, ruleStep_reasons_eq, if_neg hrf]

lemma applyModifiers_decision (er : EvaluationResult) :
    (applyModifiers er).decision
      = decisionOfSeverity (max (if er.isStale = true then 1 else 0)
          (if er.insufficientData = true then 1 else 0)) := by
  unfold applyModifiers
  cases hs : er.isStale <;> cases hi : er.insufficientData <;> simp <;> decide

lemma applyModifiers_nonempty (er : EvaluationResult) :
    (applyModifiers er).decision ≠ "ALLOW" → (applyModifiers er).reasons ≠ [] := by
  unfold applyModifiers
  cases hs : er.isStale <;> cases hi : er.insufficientData <;> simp

lemma applyModifiers_clean (er : EvaluationResult) (hs : er.isStale = false)
    (hi : er.insufficientData = false) :
    (applyModifiers er).decision = "ALLOW" ∧ (applyModifiers er).reasons = [] := by
  unfold applyModifiers
  rw [hs, hi]
  exact ⟨rfl, rfl⟩

lemma evaluateRule_action (rule : BurnRule) (er : EvaluationResult) :
    (evaluateRule rule er).action = rule.action := by
  unfold evaluateRule
  split
  · split <;> rfl
  · rfl

lemma Engine_Evaluate_decision_eq_base (s : SLO) (er : EvaluationResult) :
    (Engine.Evaluate s er).decision
      = (s.spec.burnPolicy.rules.foldl (ruleStep er) (applyModifiers er)).decision := by
  simp only [Engine.Evaluate]
  split
  · rfl
  · rfl

lemma evaluateRule_missing (rule : BurnRule) (er : EvaluationResult)
    (h : List.lookup rule.shortWindow er.burnRates = none ∨
         List.lookup rule.longWindow er.burnRates = none) :
    evaluateRule rule er
      = { ruleName := rule.name, triggered := false, action := rule.action
          shortBurnRate := 0, longBurnRate := 0, threshold := 0
          reason := "rule " ++ rule.name ++ ": missing window data" } := by
  unfold evaluateRule
  rcases h with h | h
  · rw [h]
  · rw [h]
    cases List.lookup rule.shortWindow er.burnRates <;> rfl

lemma evaluateRule_present (rule : BurnRule) (er : EvaluationResult)
    (sb lb : BurnRateResult)
    (hs : List.lookup rule.shortWindow er.burnRates = some sb)
    (hl : List.lookup rule.longWindow er.burnRates = some lb) :
    evaluateRule rule er
      = if rule.threshold ≤ sb.burnRate ∧ rule.threshold ≤ lb.burnRate then
          { ruleName := rule.name, triggered := true, action := rule.action
            shortBurnRate := sb.burnRate, longBurnRate := lb.burnRate
            threshold := rule.threshold
            reason := "rule " ++ rule.name ++ " triggered: short="
              ++ toString sb.burnRate ++ "x, long=" ++ toString lb.burnRate
              ++ "x (threshold=" ++ toString rule.threshold ++ "x)" }
        else
          { ruleName := rule.name, triggered := false, action := rule.action
            shortBurnRate := sb.burnRate, longBurnRate := lb.burnRate
            threshold := rule.threshold, reason := "" } := by
  unfold evaluateRule
  rw [hs, hl]

/-- C1: the decision of `Engine.Evaluate` is the severity maximum
(BLOCK > WARN > ALLOW) over the gating modifiers (stale and insufficient
data each contribute WARN) and the actions of all triggered burn rules; in
particular a triggered BLOCK rule forces decision BLOCK. -/
theorem Engine_decision_is_severity_max (s : SLO) (er : EvaluationResult) :
    (Engine.Evaluate s er).decision
      = decisionOfSeverity
          (max (max (if er.isStale = true then 1 else 0)
                    (if er.insufficientData = true then 1 else 0))
               (rulesSeverity er s.spec.burnPolicy.rules)) ∧
    (∀ rule ∈ s.spec.burnPolicy.rules,
      (evaluateRule rule er).triggered = true → rule.action = "BLOCK" →
      (Engine.Evaluate s er).decision = "BLOCK") := by
  have hmain : (Engine.Evaluate s er).decision
      = decisionOfSeverity
          (max (max (if er.isStale = true then 1 else 0)
                    (if er.insufficientData = true then 1 else 0))
               (rulesSeverity er s.spec.burnPolicy.rules)) := by
    rw [Engine_Evaluate_decision_eq_base]
    exact foldl_ruleStep_decision er s.spec.burnPolicy.rules (applyModifiers er)
      (max (if er.isStale = true then 1 else 0)
        (if er.insufficientData = true then 1 else 0))
      (by split_ifs <;> decide) (applyModifiers_decision er)
  refine ⟨hmain, ?_⟩
  intro rule hmem htrig hact
  have hsev : triggeredSeverity er rule = 2 := by
    unfold triggeredSeverity
    rw [if_pos htrig, evaluateRule_action, hact]
    decide
  have hge : 2 ≤ rulesSeverity er s.spec.burnPolicy.rules := by
    rw [← hsev]
    exact le_foldl_max _ _ (List.mem_map_of_mem _ hmem)
  rw [hmain]
  exact decisionOfSeverity_ge_two _ (by omega)

/-- C2: a burn rule triggers iff both its windows are present in the burn
rate map and both burn rates reach the threshold; a missing window yields an
un-triggered result whose reason contains "missing window data". -/
theorem evaluateRule_triggered_iff (rule : BurnRule) (er : EvaluationResult) :
    ((evaluateRule rule er).triggered = true ↔
      ∃ sb lb, List.lookup rule.shortWindow er.burnRates = some sb ∧
        List.lookup rule.longWindow er.burnRates = some lb ∧
        rule.threshold ≤ sb.burnRate ∧ rule.threshold ≤ lb.burnRate) ∧
    ((List.lookup rule.shortWindow er.burnRates = none ∨
      List.lookup rule.longWindow er.burnRates = none) →
      (evaluateRule rule er).triggered = false ∧
      ∃ pre, (evaluateRule rule er).reason
        = pre ++ "missing window data") := by
  by_cases hmiss : List.lookup rule.shortWindow er.burnRates = none ∨
      List.lookup rule.longWindow er.burnRates = none
  · have hev := evaluateRule_missing rule er hmiss
    constructor
    · rw [hev]
      constructor
      · intro ht
        exact absurd ht (by simp)
      · rintro ⟨sb, lb, hsb, hlb, _⟩
        rcases hmiss with h | h
        · exact absurd (h.symm.trans hsb) (by simp)
        · exact absurd (h.symm.trans hlb) (by simp)
    · intro _
      rw [hev]
      refine ⟨rfl, "rule " ++ rule.name ++ ": ", ?_⟩
      show ("rule " ++ rule.name) ++ ": missing window data"
        = (("rule " ++ rule.name) ++ ": ") ++ "missing window data"
      simp only [String.append_assoc]
      rfl
  · rw [not_or] at hmiss
    obtain ⟨sb, hs⟩ := Option.ne_none_iff_exists'.mp hmiss.1
    obtain ⟨lb, hl⟩ := Option.ne_none_iff_exists'.mp hmiss.2
    have hev := evaluateRule_present rule er sb lb hs hl
    constructor
    · constructor
      · intro ht
        by_cases hcond : rule.threshold ≤ sb.burnRate ∧ rule.threshold ≤ lb.burnRate
        · exact ⟨sb, lb, hs, hl, hcond.1, hcond.2⟩
        · rw [hev, if_neg hcond] at ht
          exact absurd ht (by simp)
      · rintro ⟨sb', lb', hsb, hlb, h1, h2⟩
        have hsb' : sb' = sb := Option.some.inj (hs.symm.trans hsb).symm
        have hlb' : lb' = lb := Option.some.inj (hl.symm.trans hlb).symm
        rw [hev, if_pos ⟨hsb' ▸ h1, hlb' ▸ h2⟩]
    · rintro (h | h)
      · exact absurd h hmiss.1
      · exact absurd h hmiss.2

/-- C10: the reasons list of `Engine.Evaluate` is never empty, and when no
modifier fires and no rule triggers it is exactly the positive phrase. -/
theorem Engine_reasons_nonempty (s : SLO) (er : EvaluationResult) :
    (Engine.Evaluate s er).reasons ≠ [] ∧
    (er.isStale = false → er.insufficientData = false →
      (∀ rule ∈ s.spec.burnPolicy.rules, (evaluateRule rule er).triggered = false) →
      (Engine.Evaluate s er).reasons = ["all burn rate checks passed"]) := by
  constructor
  · simp only [Engine.Evaluate]
    split
    · simp
    · rename_i hcond
      intro hre
      rcases not_and_or.mp hcond with hd | hr
      · exact hd (by_contra fun hd' =>
          (foldl_ruleStep_nonempty er s.spec.burnPolicy.rules
            (applyModifiers er) (applyModifiers_nonempty er) hd') hre)
      · exact hr hre
  · intro hs hi hnone
    obtain ⟨hcl1, hcl2⟩ := applyModifiers_clean er hs hi
    obtain ⟨hfd, hfr⟩ := foldl_ruleStep_no_trigger er s.spec.burnPolicy.rules
      hnone (applyModifiers er)
    simp only [Engine.Evaluate]
    rw [if_pos ⟨hfd.trans hcl1, hfr.trans hcl2⟩, hfr, hcl2]
    rfl

/-! ## Concrete sample inputs used by the witnesses. -/

def sampleRule : BurnRule :=
  { name := "fast-burn", shortWindow := "5m", longWindow := "1h"
    threshold := 14, action := "BLOCK" }

def sampleSLO : SLO :=
  { metadata := { id := "test-slo", service := "svc" }
    spec :=
      { objective := 999 / 1000, complianceWindow := "30d"
        evaluationInterval := "1m"
        sli := { sliType := "ratio", good := ⟨"fixture:good"⟩
                 total := ⟨"fixture:total"⟩ }
        burnPolicy := ⟨[sampleRule]⟩
        gating := { minDataPoints := 0, stalenessLimit := "5m" } } }

def sampleBurnER : EvaluationResult :=
  { sloID := "test-slo", sli := ⟨1, 0, false, ""⟩
    burnRates := [("5m", ⟨"5m", 15, 49 / 50, 1 / 50⟩),
                  ("1h", ⟨"1h", 15, 49 / 50, 1 / 50⟩)]
    budgetRemaining := 1, insufficientData := false, isStale := false
    timestamp := 0 }

def sampleMissingER : EvaluationResult :=
  { sloID := "test-slo", sli := ⟨1, 0, false, ""⟩
    burnRates := [("5m", ⟨"5m", 15, 0, 0⟩)]
    budgetRemaining := 1, insufficientData := false, isStale := false
    timestamp := 0 }

def sampleCleanER : EvaluationResult :=
  { sloID := "test-slo", sli := ⟨1, 0, false, ""⟩
    burnRates := []
    budgetRemaining := 1, insufficientData := false, isStale := false
    timestamp := 0 }

/-- Witness for C1: the triggered BLOCK rule of `sampleBurnER` forces a
BLOCK decision. -/
theorem Engine_decision_is_severity_max_witness :
    (Engine.Evaluate sampleSLO sampleBurnER).decision = "BLOCK" :=
  (Engine_decision_is_severity_max sampleSLO sampleBurnER).2 sampleRule
    (by decide) (by decide) (by decide)

/-- Witness for C2: with the long window absent from the map, the sample
rule does not trigger and its reason carries the missing-window phrase. -/
theorem evaluateRule_triggered_iff_witness :
    (evaluateRule sampleRule sampleMissingER).triggered = false ∧
    ∃ pre, (evaluateRule sampleRule sampleMissingER).reason
      = pre ++ "missing window data" :=
  (evaluateRule_triggered_iff sampleRule sampleMissingER).2 (Or.inr (by decide))

/-- Witness for C10: a clean evaluation yields exactly the positive
reason. -/
theorem Engine_reasons_nonempty_witness :
    (Engine.Evaluate sampleSLO sampleCleanER).reasons
      = ["all burn rate checks passed"] :=
  (Engine_reasons_nonempty sampleSLO sampleCleanER).2 rfl rfl (by decide)

/-! ## Evaluator (internal/eval/evaluator.go).

The `MetricsAdapter` interface is a function from query template and window
label to a fallible `WindowMetrics`. -/

/-- The `MetricsAdapter.QueryWindow` capability. -/
def Adapter : Type := String → String → Except String WindowMetrics

/-- Set-insertion of a window label, as Go's `windowSet[w] = struct{}{}`. -/
def addWindow (acc : List String) (w : String) : List String :=
  if w ∈ acc then acc else acc ++ [w]

/-- Embeds `Evaluator.collectWindows`: the compliance window plus every
burn-rule short and long window, deduplicated (Go uses a map-backed set; we
keep first-insertion order, which no claim observes). -/
def collectWindows (sloSpec : SLO) : List String :=
  sloSpec.spec.burnPolicy.rules.foldl
    (fun acc r => addWindow (addWindow acc r.shortWindow) r.longWindow)
    [sloSpec.spec.complianceWindow]

/-- The timestamp chosen for a window in `Evaluator.Evaluate`: the later of
the good-query and total-query timestamps when both exist, otherwise
whichever is present. -/
def chooseTimestamp (g t : Option ℤ) : Option ℤ :=
  match g, t with
  | some a, some b => some (if b < a then a else b)
  | some a, none => some a
  | none, some b => some b
  | none, none => none

/-- The fold of the two per-window adapter results into one
`WindowMetrics`: good from the good query, total from the total query,
timestamp chosen by `chooseTimestamp`. -/
def foldWindow (w : String) (gm tm : WindowMetrics) : WindowMetrics :=
  { window := w, good := gm.good, total := tm.total
    dataTimestamp := chooseTimestamp gm.dataTimestamp tm.dataTimestamp }

/-- The per-window query loop of `Evaluator.Evaluate`: for each window the
good query then the total query, each failure wrapped with the window and
role; successes are folded into the window-keyed metrics list. -/
def queryWindows (adapter : Adapter) (goodQ totalQ : String) :
    List String → Except String (List (String × WindowMetrics))
  | [] => .ok []
  | w :: rest =>
    match adapter goodQ w with
    | .error e => .error ("query good metrics (window=" ++ w ++ "): " ++ e)
    | .ok gm =>
      match adapter totalQ w with
      | .error e => .error ("query total metrics (window=" ++ w ++ "): " ++ e)
      | .ok tm =>
        match queryWindows adapter goodQ totalQ rest with
        | .error e => .error e
        | .ok restList => .ok ((w, foldWindow w gm tm) :: restList)

/-- Whether one window's metrics trip the staleness limit at time `now`:
a present timestamp older than the limit.  A missing timestamp never
contributes. -/
def windowStale (now limit : ℤ) (m : WindowMetrics) : Bool :=
  match m.dataTimestamp with
  | some ts => decide (limit < now - ts)
  | none => false

/-- Embeds `Evaluator.Evaluate`: collect windows, parse the staleness limit
(only when configured non-empty and parseable), query and fold every
window, require the compliance window, then assemble SLI, burn rates,
insufficient-data and staleness flags, and remaining budget. -/
def Evaluator.Evaluate (adapter : Adapter) (sloSpec : SLO) (now : ℤ) :
    Except String EvaluationResult :=
  let windows := collectWindows sloSpec
  let limitOpt : Option ℤ :=
    if sloSpec.spec.gating.stalenessLimit ≠ "" then
      (ParseDuration sloSpec.spec.gating.stalenessLimit).toOption
    else none
  match queryWindows adapter sloSpec.spec.sli.good.prometheusQuery
      sloSpec.spec.sli.total.prometheusQuery windows with
  | .error e => .error e
  | .ok wms =>
    match List.lookup sloSpec.spec.complianceWindow wms with
    | none => .error ("missing metrics for compliance window "
        ++ sloSpec.spec.complianceWindow)
    | some cm =>
      let sli := ComputeSLI cm.good cm.total
      let isStale :=
        match limitOpt with
        | some limit => wms.any (fun p => windowStale now limit p.2)
        | none => false
      let burnRates := wms.map (fun p =>
        let sr := ComputeSLI p.2.good p.2.total
        (p.1, { window := p.1
                burnRate := ComputeBurnRate sr.errorRate sloSpec.spec.objective
                sli := sr.value, errorRate := sr.errorRate : BurnRateResult }))
      let insufficient := wms.any (fun p => (ComputeSLI p.2.good p.2.total).insufficientData)
      .ok { sloID := sloSpec.metadata.id, sli := sli, burnRates := burnRates
            budgetRemaining := ComputeBudgetRemaining sli.errorRate sloSpec.spec.objective
            insufficientData := insufficient, isStale := isStale, timestamp := now }

lemma mem_addWindow (acc : List String) (w x : String) :
    x ∈ addWindow acc w ↔ x ∈ acc ∨ x = w := by
  unfold addWindow
  split
  · rename_i h
    constructor
    · exact Or.inl
    · rintro (hx | rfl)
      · exact hx
      · exact h
  · simp

lemma mem_collectWindows_foldl (rules : List BurnRule) :
    ∀ (acc : List String) (x : String),
      (x ∈ rules.foldl
        (fun a r => addWindow (addWindow a r.shortWindow) r.longWindow) acc) ↔
      (x ∈ acc ∨ ∃ r ∈ rules, x = r.shortWindow ∨ x = r.longWindow) := by
  induction rules with
  | nil =>
    intro acc x
    simp
  | cons r rs ih =>
    intro acc x
    rw [List.foldl_cons, ih, mem_addWindow, mem_addWindow]
    constructor
    · rintro ((( h | h) | h) | ⟨r', hm, h⟩)
      · exact Or.inl h
      · exact Or.inr ⟨r, by simp, Or.inl h⟩
      · exact Or.inr ⟨r, by simp, Or.inr h⟩
      · exact Or.inr ⟨r', List.mem_cons_of_mem _ hm, h⟩
    · rintro (h | ⟨r', hm, h⟩)
      · exact Or.inl (Or.inl (Or.inl h))
      · rcases List.mem_cons.mp hm with rfl | hm'
        · rcases h with h | h
          · exact Or.inl (Or.inl (Or.inr h))
          · exact Or.inl (Or.inr h)
        · exact Or.inr ⟨r', hm', h⟩

lemma mem_collectWindows (s : SLO) (x : String) :
    x ∈ collectWindows s ↔
      (x = s.spec.complianceWindow ∨
       ∃ r ∈ s.spec.burnPolicy.rules, x = r.shortWindow ∨ x = r.longWindow) := by
  unfold collectWindows
  rw [mem_collectWindows_foldl]
  simp

lemma compliance_mem_collectWindows (s : SLO) :
    s.spec.complianceWindow ∈ collectWindows s :=
  (mem_collectWindows s _).mpr (Or.inl rfl)

lemma lookup_isSome_iff {β : Type} (l : List (String × β)) (w : String) :
    (List.lookup w l).isSome = true ↔ w ∈ l.map Prod.fst := by
  induction l with
  | nil => simp [List.lookup]
  | cons p t ih =>
    obtain ⟨a, b⟩ := p
    by_cases h : w = a
    · subst h
      simp [List.lookup]
    · rw [List.lookup, show (w == a) = false from beq_eq_false_iff_ne.mpr h]
      simp only [List.map_cons, List.mem_cons]
      rw [ih]
      constructor
      · exact Or.inr
      · rintro (rfl | hm)
        · exact absurd rfl h
        · exact hm

lemma queryWindows_cons_ok (adapter : Adapter) (gq tq w : String)
    (rest : List String) (l : List (String × WindowMetrics))
    (h : queryWindows adapter gq tq (w :: rest) = .ok l) :
    ∃ gm tm restList, adapter gq w = .ok gm ∧ adapter tq w = .ok tm ∧
      queryWindows adapter gq tq rest = .ok restList ∧
      l = (w, foldWindow w gm tm) :: restList := by
  simp only [queryWindows] at h
  cases hg : adapter gq w with
  | error e =>
    rw [hg] at h
    exact absurd h (by simp)
  | ok gm =>
    rw [hg] at h
    cases ht : adapter tq w with
    | error e =>
      rw [ht] at h
      exact absurd h (by simp)
    | ok tm =>
      rw [ht] at h
      cases hr : queryWindows adapter gq tq rest with
      | error e =>
        rw [hr] at h
        exact absurd h (by simp)
      | ok restList =>
        rw [hr] at h
        exact ⟨gm, tm, restList, rfl, rfl, rfl, (Except.ok.inj h).symm⟩

lemma queryWindows_ok_elem (adapter : Adapter) (gq tq : String) :
    ∀ (ws : List String) (l : List (String × WindowMetrics)),
      queryWindows adapter gq tq ws = .ok l →
      ∀ p ∈ l, p.1 ∈ ws ∧ ∃ gm tm, adapter gq p.1 = .ok gm ∧
        adapter tq p.1 = .ok tm ∧ p.2 = foldWindow p.1 gm tm := by
  intro ws
  induction ws with
  | nil =>
    intro l hl p hp
    have : ([] : List (String × WindowMetrics)) = l := Except.ok.inj hl
    rw [← this] at hp
    cases hp
  | cons w rest ih =>
    intro l hl p hp
    obtain ⟨gm, tm, restList, hg, ht, hr, rfl⟩ :=
      queryWindows_cons_ok adapter gq tq w rest l hl
    rcases List.mem_cons.mp hp with rfl | hp'
    · exact ⟨by simp, gm, tm, hg, ht, rfl⟩
    · obtain ⟨h1, h2⟩ := ih restList hr p hp'
      exact ⟨List.mem_cons_of_mem _ h1, h2⟩

lemma queryWindows_ok_mem (adapter : Adapter) (gq tq : String) :
    ∀ (ws : List String) (l : List (String × WindowMetrics)),
      queryWindows adapter gq tq ws = .ok l →
      ∀ w ∈ ws, ∃ gm tm, adapter gq w = .ok gm ∧ adapter tq w = .ok tm ∧
        (w, foldWindow w gm tm) ∈ l := by
  intro ws
  induction ws with
  | nil =>
    intro l _ w hw
    cases hw
  | cons w0 rest ih =>
    intro l hl w hw
    obtain ⟨gm, tm, restList, hg, ht, hr, rfl⟩ :=
      queryWindows_cons_ok adapter gq tq w0 rest l hl
    rcases List.mem_cons.mp hw with rfl | hw'
    · exact ⟨gm, tm, hg, ht, by simp⟩
    · obtain ⟨gm', tm', hg', ht', hm'⟩ := ih restList hr w hw'
      exact ⟨gm', tm', hg', ht', List.mem_cons_of_mem _ hm'⟩

lemma queryWindows_ok_keys (adapter : Adapter) (gq tq : String) :
    ∀ (ws : List String) (l : List (String × WindowMetrics)),
      queryWindows adapter gq tq ws = .ok l → l.map Prod.fst = ws := by
  intro ws
  induction ws with
  | nil =>
    intro l hl
    rw [← Except.ok.inj hl]
    rfl
  | cons w rest ih =>
    intro l hl
    obtain ⟨gm, tm, restList, _, _, hr, rfl⟩ :=
      queryWindows_cons_ok adapter gq tq w rest l hl
    rw [List.map_cons, ih restList hr]

/-- Inversion of a successful `Evaluator.Evaluate`: the query loop and the
compliance lookup succeeded, and the result is the assembled record. -/
lemma Evaluate_ok_inversion (adapter : Adapter) (s : SLO) (now : ℤ)
    (r : EvaluationResult) (hok : Evaluator.Evaluate adapter s now = .ok r) :
    ∃ wms cm,
      queryWindows adapter s.spec.sli.good.prometheusQuery
        s.spec.sli.total.prometheusQuery (collectWindows s) = .ok wms ∧
      List.lookup s.spec.complianceWindow wms = some cm ∧
      r.isStale = (match (if s.spec.gating.stalenessLimit ≠ "" then
            (ParseDuration s.spec.gating.stalenessLimit).toOption else none) with
          | some limit => wms.any (fun p => windowStale now limit p.2)
          | none => false) ∧
      r.burnRates = wms.map (fun p =>
        let sr := ComputeSLI p.2.good p.2.total
        (p.1, { window := p.1
                burnRate := ComputeBurnRate sr.errorRate s.spec.objective
                sli := sr.value, errorRate := sr.errorRate : BurnRateResult })) := by
  unfold Evaluator.Evaluate at hok
  dsimp only at hok
  cases hqw : queryWindows adapter s.spec.sli.good.prometheusQuery
      s.spec.sli.total.prometheusQuery (collectWindows s) with
  | error e =>
    rw [hqw] at hok
    exact absurd hok (by simp)
  | ok wms =>
    rw [hqw] at hok
    dsimp only at hok
    cases hlc : List.lookup s.spec.complianceWindow wms with
    | none =>
      rw [hlc] at hok
      exact absurd hok (by simp)
    | some cm =>
      rw [hlc] at hok
      dsimp only at hok
      have hr := Except.ok.inj hok
      exact ⟨wms, cm, rfl, hlc, by rw [← hr], by rw [← hr]⟩

/-- C5: with a configured, parseable staleness limit, a successful
evaluation is stale exactly when some required window's chosen timestamp
(the later of the good/total query timestamps, else whichever is present)
is older than the limit; absent timestamps never contribute. -/
theorem Evaluator_isStale_iff (adapter : Adapter) (s : SLO) (now limit : ℤ)
    (r : EvaluationResult)
    (hne : s.spec.gating.stalenessLimit ≠ "")
    (hparse : ParseDuration s.spec.gating.stalenessLimit = .ok limit)
    (hok : Evaluator.Evaluate adapter s now = .ok r) :
    r.isStale = true ↔
      ∃ w ∈ collectWindows s, ∃ gm tm,
        adapter s.spec.sli.good.prometheusQuery w = .ok gm ∧
        adapter s.spec.sli.total.prometheusQuery w = .ok tm ∧
        ∃ ts, chooseTimestamp gm.dataTimestamp tm.dataTimestamp = some ts ∧
          limit < now - ts := by
  obtain ⟨wms, cm, hqw, _, hstale, _⟩ := Evaluate_ok_inversion adapter s now r hok
  rw [if_pos hne, hparse] at hstale
  simp only [Except.toOption] at hstale
  rw [hstale, List.any_eq_true]
  constructor
  · rintro ⟨p, hpmem, hpstale⟩
    obtain ⟨hpw, gm, tm, hg, ht, hpfold⟩ :=
      queryWindows_ok_elem adapter _ _ _ wms hqw p hpmem
    unfold windowStale at hpstale
    rw [hpfold] at hpstale
    cases hts : chooseTimestamp gm.dataTimestamp tm.dataTimestamp with
    | none =>
      rw [show (foldWindow p.1 gm tm).dataTimestamp
          = chooseTimestamp gm.dataTimestamp tm.dataTimestamp from rfl, hts] at hpstale
      exact absurd hpstale (by simp)
    | some ts =>
      rw [show (foldWindow p.1 gm tm).dataTimestamp
          = chooseTimestamp gm.dataTimestamp tm.dataTimestamp from rfl, hts] at hpstale
      exact ⟨p.1, hpw, gm, tm, hg, ht, ts, hts, of_decide_eq_true hpstale⟩
  · rintro ⟨w, hw, gm, tm, hg, ht, ts, hts, hlt⟩
    obtain ⟨gm', tm', hg', ht', hmem'⟩ :=
      queryWindows_ok_mem adapter _ _ _ wms hqw w hw
    have hgm : gm' = gm := Except.ok.inj (hg'.symm.trans hg)
    have htm : tm' = tm := Except.ok.inj (ht'.symm.trans ht)
    refine ⟨(w, foldWindow w gm' tm'), hmem', ?_⟩
    unfold windowStale
    rw [show (foldWindow w gm' tm').dataTimestamp
        = chooseTimestamp gm'.dataTimestamp tm'.dataTimestamp from rfl,
      hgm, htm, hts]
    exact decide_eq_true hlt

/-- C6: a successful evaluation's burn-rate map has exactly the compliance
window and every rule's short and long window as keys. -/
theorem Evaluator_burnRates_keys (adapter : Adapter) (s : SLO) (now : ℤ)
    (r : EvaluationResult) (hok : Evaluator.Evaluate adapter s now = .ok r) :
    ∀ w, (List.lookup w r.burnRates).isSome = true ↔
      (w = s.spec.complianceWindow ∨
       ∃ rule ∈ s.spec.burnPolicy.rules,
         w = rule.shortWindow ∨ w = rule.longWindow) := by
  obtain ⟨wms, cm, hqw, _, _, hbr⟩ := Evaluate_ok_inversion adapter s now r hok
  intro w
  rw [lookup_isSome_iff, hbr, List.map_map,
    show ((Prod.fst ∘ fun p : String × WindowMetrics =>
      let sr := ComputeSLI p.2.good p.2.total
      (p.1, { window := p.1
              burnRate := ComputeBurnRate sr.errorRate s.spec.objective
              sli := sr.value, errorRate := sr.errorRate : BurnRateResult }))
      = Prod.fst) from rfl,
    queryWindows_ok_keys adapter _ _ _ wms hqw, mem_collectWindows]

/-! ## Scheduler and state cache (internal/scheduler). -/

/-- Embeds `scheduler.EvaluationState`. -/
structure EvaluationState where
  evalResult : EvaluationResult
  gateResult : GateResult
  updatedAt : ℤ
  ttl : ℤ
deriving DecidableEq

/-- The state cache's map from SLO id to state, as an association list. -/
abbrev StateCache : Type := List (String × EvaluationState)

/-- Embeds `StateCache.Set`: map assignment (replace the existing entry for
the key, else append). -/
def cacheSet (c : StateCache) (id : String) (st : EvaluationState) : StateCache :=
  if (List.lookup id c).isSome then
    c.map (fun p => if p.1 = id then (id, st) else p)
  else c ++ [(id, st)]

/-- Embeds `Scheduler.evaluateOnce`: evaluate, and on error log and return
(leaving the cache untouched); on success run the policy engine and store
the new state under the SLO's id.  Audit-sink calls do not touch the
cache. -/
def Scheduler.evaluateOnce (adapter : Adapter) (cache : StateCache)
    (sloSpec : SLO) (interval now : ℤ) : StateCache :=
  match Evaluator.Evaluate adapter sloSpec now with
  | .error _ => cache
  | .ok evalResult =>
    let gateResult := Engine.Evaluate sloSpec evalResult
    cacheSet cache sloSpec.metadata.id
      { evalResult := evalResult, gateResult := gateResult
        updatedAt := now, ttl := interval }

lemma queryWindows_error_of_fail (adapter : Adapter) (gq tq : String) :
    ∀ ws : List String,
      (∃ w ∈ ws, (∃ e, adapter gq w = .error e) ∨ (∃ e, adapter tq w = .error e)) →
      ∃ msg, queryWindows adapter gq tq ws = .error msg := by
  intro ws
  induction ws with
  | nil =>
    rintro ⟨w, hw, _⟩
    cases hw
  | cons w0 rest ih =>
    rintro ⟨w, hw, hfail⟩
    cases hg : adapter gq w0 with
    | error e =>
      exact ⟨_, by simp only [queryWindows]; rw [hg]⟩
    | ok gm =>
      cases ht : adapter tq w0 with
      | error e =>
        exact ⟨_, by simp only [queryWindows]; rw [hg, ht]⟩
      | ok tm =>
        rcases List.mem_cons.mp hw with rfl | hw'
        · rcases hfail with ⟨e, he⟩ | ⟨e, he⟩
          · exact absurd (hg.symm.trans he) (by simp)
          · exact absurd (ht.symm.trans he) (by simp)
        · obtain ⟨msg, hmsg⟩ := ih ⟨w, hw', hfail⟩
          exact ⟨msg, by simp only [queryWindows]; rw [hg, ht, hmsg]⟩

lemma queryWindows_error_shape (adapter : Adapter) (gq tq : String) :
    ∀ (ws : List String) (msg : String),
      queryWindows adapter gq tq ws = .error msg →
      ∃ w ∈ ws, ∃ e,
        (adapter gq w = .error e ∧
          msg = "query good metrics (window=" ++ w ++ "): " ++ e) ∨
        (adapter tq w = .error e ∧
          msg = "query total metrics (window=" ++ w ++ "): " ++ e) := by
  intro ws
  induction ws with
  | nil =>
    intro msg h
    exact absurd h (by simp [queryWindows])
  | cons w0 rest ih =>
    intro msg h
    simp only [queryWindows] at h
    cases hg : adapter gq w0 with
    | error e =>
      rw [hg] at h
      exact ⟨w0, by simp, e, Or.inl ⟨hg, (Except.error.inj h).symm⟩⟩
    | ok gm =>
      rw [hg] at h
      cases ht : adapter tq w0 with
      | error e =>
        rw [ht] at h
        exact ⟨w0, by simp, e, Or.inr ⟨ht, (Except.error.inj h).symm⟩⟩
      | ok tm =>
        rw [ht] at h
        cases hr : queryWindows adapter gq tq rest with
        | error e' =>
          rw [hr] at h
          obtain ⟨w, hw, e, hcase⟩ := ih e' hr
          have hme : e' = msg := Except.error.inj h
          exact ⟨w, List.mem_cons_of_mem _ hw, e, hme ▸ hcase⟩
        | ok _ =>
          rw [hr] at h
          exact absurd h (by simp)

lemma Evaluate_error_of_queryWindows (adapter : Adapter) (s : SLO)
    (now : ℤ) (msg : String)
    (h : queryWindows adapter s.spec.sli.good.prometheusQuery
      s.spec.sli.total.prometheusQuery (collectWindows s) = .error msg) :
    Evaluator.Evaluate adapter s now = .error msg := by
  unfold Evaluator.Evaluate
  dsimp only
  rw [h]

/-- C7: when some adapter call for a required window fails, the evaluator
returns an error naming a failing window and role, and `evaluateOnce`
leaves the whole cache exactly as it was — no entry changes and no gate
result (in particular no BLOCK) is synthesized. -/
theorem Scheduler_error_keeps_cache (adapter : Adapter) (cache : StateCache)
    (s : SLO) (interval now : ℤ)
    (hfail : ∃ w ∈ collectWindows s,
      (∃ e, adapter s.spec.sli.good.prometheusQuery w = .error e) ∨
      (∃ e, adapter s.spec.sli.total.prometheusQuery w = .error e)) :
    (∃ msg, Evaluator.Evaluate adapter s now = .error msg ∧
      ∃ w ∈ collectWindows s, ∃ e,
        (adapter s.spec.sli.good.prometheusQuery w = .error e ∧
          msg = "query good metrics (window=" ++ w ++ "): " ++ e) ∨
        (adapter s.spec.sli.total.prometheusQuery w = .error e ∧
          msg = "query total metrics (window=" ++ w ++ "): " ++ e)) ∧
    Scheduler.evaluateOnce adapter cache s interval now = cache := by
  obtain ⟨msg, hmsg⟩ := queryWindows_error_of_fail adapter
    s.spec.sli.good.prometheusQuery s.spec.sli.total.prometheusQuery
    (collectWindows s) hfail
  have hev : Evaluator.Evaluate adapter s now = .error msg :=
    Evaluate_error_of_queryWindows adapter s now msg hmsg
  refine ⟨⟨msg, hev, queryWindows_error_shape adapter _ _ _ msg hmsg⟩, ?_⟩
  unfold Scheduler.evaluateOnce
  rw [hev]

/-! ## Concrete adapters and evaluation outputs for the witnesses. -/

/-- An adapter that always answers with zero traffic at timestamp 0. -/
def staleAdapter : Adapter :=
  fun _ w => .ok { window := w, good := 0, total := 0, dataTimestamp := some 0 }

/-- An adapter whose every call fails. -/
def badAdapter : Adapter := fun _ _ => .error "boom"

/-- `sampleSLO` with a degenerate objective of 1 (zero error budget), used
so the witness evaluation stays in the exactly-computable branches. -/
def degenerateSLO : SLO :=
  { metadata := { id := "test-slo", service := "svc" }
    spec :=
      { objective := 1, complianceWindow := "30d"
        evaluationInterval := "1m"
        sli := { sliType := "ratio", good := ⟨"fixture:good"⟩
                 total := ⟨"fixture:total"⟩ }
        burnPolicy := ⟨[sampleRule]⟩
        gating := { minDataPoints := 0, stalenessLimit := "5m" } } }

/-- The evaluation `staleAdapter` produces for `degenerateSLO` at time
10^12 ns: zero traffic everywhere and stale data (timestamp 0 is older
than the 5m limit). -/
def staleEvalOut : EvaluationResult :=
  { sloID := "test-slo", sli := ⟨0, 0, true, "no traffic (total=0)"⟩
    burnRates := [("30d", ⟨"30d", ComputeBurnRate 0 1, 0, 0⟩),
                  ("5m", ⟨"5m", ComputeBurnRate 0 1, 0, 0⟩),
                  ("1h", ⟨"1h", ComputeBurnRate 0 1, 0, 0⟩)]
    budgetRemaining := ComputeBudgetRemaining 0 1
    insufficientData := true, isStale := true
    timestamp := 1000000000000 }

def sampleState : EvaluationState :=
  { evalResult := sampleCleanER
    gateResult := { decision := "ALLOW", ruleResults := []
                    reasons := ["all burn rate checks passed"]
                    isStale := false, hasNoTraffic := false }
    updatedAt := 0, ttl := 60000000000 }

def sampleCache : StateCache := [("other-slo", sampleState)]

/-- Witness for C5 at `staleAdapter`, `degenerateSLO`, `now` = 10^12 ns,
limit 5m. -/
theorem Evaluator_isStale_iff_witness :
    staleEvalOut.isStale = true ↔
      ∃ w ∈ collectWindows degenerateSLO, ∃ gm tm,
        staleAdapter degenerateSLO.spec.sli.good.prometheusQuery w = .ok gm ∧
        staleAdapter degenerateSLO.spec.sli.total.prometheusQuery w = .ok tm ∧
        ∃ ts, chooseTimestamp gm.dataTimestamp tm.dataTimestamp = some ts ∧
          300000000000 < 1000000000000 - ts :=
  Evaluator_isStale_iff staleAdapter degenerateSLO 1000000000000 300000000000
    staleEvalOut (by decide) (by rfl) (by rfl)

/-- Witness for C6 at the same evaluation, for the window "5m". -/
theorem Evaluator_burnRates_keys_witness :
    (List.lookup "5m" staleEvalOut.burnRates).isSome = true ↔
      ("5m" = degenerateSLO.spec.complianceWindow ∨
       ∃ rule ∈ degenerateSLO.spec.burnPolicy.rules,
         "5m" = rule.shortWindow ∨ "5m" = rule.longWindow) :=
  Evaluator_burnRates_keys staleAdapter degenerateSLO 1000000000000 staleEvalOut
    (by rfl) "5m"

/-- Witness for C7: with the always-failing adapter, one tick leaves the
cache exactly as it was. -/
theorem Scheduler_error_keeps_cache_witness :
    Scheduler.evaluateOnce badAdapter sampleCache sampleSLO 60000000000 0
      = sampleCache :=
  (Scheduler_error_keeps_cache badAdapter sampleCache sampleSLO 60000000000 0
    ⟨"30d", by decide, Or.inl ⟨"boom", rfl⟩⟩).2

end Aegis
